import Mathlib

/-!
Verification of the epoch-slicing and baseline-correction core of
`neurokit2/epochs/epochs_create.py`.

The embedding models the pandas/numpy operations the source uses, faithfully
to their documented semantics, over exact rationals:

* Python `int()` on a real value truncates toward zero (`truncQ`).
* A Python/pandas positional slice `data.iloc[a:b]` resolves a negative bound
  `x` to `x + N` (counting from the end) and then clamps both bounds to
  `[0, N]`; it never raises (`effIdx`, `pySliceIdx`).
* `np.linspace(start, stop, num, endpoint=True)` (`linspace`).
* pandas label slicing `epoch.loc[lo:hi]` on the monotonically increasing
  relative-time index selects the rows whose label `t` satisfies
  `lo ≤ t ≤ hi`, both endpoints inclusive (`rangeMask`, `leMask`); the open
  variant `epoch.loc[:hi]` selects `t ≤ hi`.
* `DataFrame.mean()` is the column-wise mean, and `epoch - baseline` with a
  column-indexed Series subtracts per column; with a scalar it subtracts the
  scalar from every entry (`qMean`, `subCols`).
* A scalar label lookup `epoch.loc[v]` raises `KeyError` when no row carries
  the label `v`; with exactly one match it returns that row as a Series, so
  `epoch.loc[v].mean()` is the mean of that row ACROSS columns (a scalar).

DataFrames are column-major (as in pandas): a table is a list of columns of
rationals plus the row index.  The `Label` / `Condition` columns added at the
end of the per-event loop hold one constant string each and are modelled as
`Option String` fields.

In-place mutation is modelled by state threading: every function returns,
besides its result, the final contents of the Python objects it may write to.
`_epochs_create_baseline` writes to the caller's `baseline_correction` list
(lines 121-124 of the source), so it returns the final policy value; `data`
and `events` are never written (line 91 takes a `.copy()` before the epoch is
modified), so `epochsCreate` returns them unchanged.

The top-level `epochs_create` is modelled for scalar `epochs_start` /
`epochs_duration` (the broadcast case: `listify` replicates a scalar across
all events, and line 99 passes the raw scalar `epochs_start` on to
`_epochs_create_baseline`).
-/

namespace EpochsCreate

/-- Python `int()` applied to an exact real value: truncation toward zero. -/
def truncQ (q : ℚ) : ℤ := if q < 0 then ⌈q⌉ else ⌊q⌋

/-- Effective bound of a Python slice over `N` elements: a negative bound
counts from the end (`a + N`), then the result is clamped to `[0, N]`. -/
def effIdx (N : ℕ) (a : ℤ) : ℕ := if a < 0 then (a + N).toNat else min a.toNat N

/-- The row positions selected by the Python slice `[a:b]` over `N` rows
(semantics of `data.iloc[a:b]`, line 91 of the source). -/
def pySliceIdx (N : ℕ) (a b : ℤ) : List ℕ :=
  List.range' (effIdx N a) (effIdx N b - effIdx N a)

/-- A negative Python slice bound resolved to an absolute position
(no clamping); used to state what slicing actually does. -/
def pyWrap (N : ℕ) (a : ℤ) : ℤ := if a < 0 then a + N else a

/-- Modelled from the spec's words (for comparison with `pySliceIdx`):
"the rows in `[start_sample, end_sample)` clipped to the table's valid row
range `0..N-1`". -/
def specClipIdx (N : ℕ) (a b : ℤ) : List ℕ :=
  (List.range N).filter (fun i => decide (a ≤ (i : ℤ) ∧ (i : ℤ) < b))

/-- `np.linspace s e n` with `endpoint=True` (line 95 of the source). -/
def linspace (s e : ℚ) (n : ℕ) : List ℚ :=
  if n ≤ 1 then (List.range n).map (fun _ => s)
  else (List.range n).map (fun i : ℕ => s + (i : ℚ) * ((e - s) / ((n : ℚ) - 1)))

/-- The Signal Table: `nRows` samples, one column of rationals per channel,
implicit row index `0..nRows-1`. -/
structure SigTable where
  nRows : ℕ
  names : List String
  cols : List (List ℚ)
deriving DecidableEq

/-- An epoch DataFrame: relative-time row index, named numeric columns
(column-major), and the constant `Label` / `Condition` string columns
(absent while `none`). -/
structure Epoch where
  index : List ℚ
  names : List String
  cols : List (List ℚ)
  label : Option String
  condition : Option String
deriving DecidableEq

/-- Column-wise mean of a list of values (`DataFrame.mean()` over a column).
Empty input never occurs on the paths the theorems traverse. -/
def qMean (l : List ℚ) : ℚ := l.sum / l.length

/-- Select the entries of a column whose row is marked `true` in the mask. -/
def maskSelect (mask : List Bool) (c : List ℚ) : List ℚ :=
  (mask.zip c).filterMap (fun p => if p.1 then some p.2 else none)

/-- Row mask for `epoch.loc[lo:hi]` (label slice, both ends inclusive). -/
def rangeMask (idx : List ℚ) (lo hi : ℚ) : List Bool :=
  idx.map (fun t => decide (lo ≤ t ∧ t ≤ hi))

/-- Row mask for `epoch.loc[:hi]` (label slice from the beginning). -/
def leMask (idx : List ℚ) (hi : ℚ) : List Bool :=
  idx.map (fun t => decide (t ≤ hi))

/-- Line 87 of the source followed by `int(...)` at line 91:
`start = onset + epochs_start * sampling_rate`, truncated toward zero. -/
def startSample (onset : ℤ) (s r : ℚ) : ℤ := truncQ ((onset : ℚ) + s * r)

/-- Line 88 of the source followed by `int(...)` at line 91:
`end = start + duration * sampling_rate` with the untruncated `start`. -/
def endSample (onset : ℤ) (s d r : ℚ) : ℤ := truncQ (((onset : ℚ) + s * r) + d * r)

/-- Positional selection of column entries (`iloc` applied to one column). -/
def pySel (c : List ℚ) (idxs : List ℕ) : List ℚ := idxs.map (fun i => c.getD i 0)

/-- Lines 87-95 of the source for one event: compute the sample bounds, slice
the table (keeping the absolute row positions), record those positions as the
new `Index` column, and re-index by `np.linspace(start, start + duration,
num=len(epoch))`. -/
def makeEpoch (data : SigTable) (onset : ℤ) (s d r : ℚ) : Epoch :=
  let idxs := pySliceIdx data.nRows (startSample onset s r) (endSample onset s d r)
  { index := linspace s (s + d) idxs.length
    names := data.names ++ ["Index"]
    cols := data.cols.map (fun c => pySel c idxs) ++ [idxs.map (fun i => (i : ℚ))]
    label := none
    condition := none }

/-- The number of rows the slice for one event actually contains. -/
def sliceLen (data : SigTable) (onset : ℤ) (s d r : ℚ) : ℕ :=
  (pySliceIdx data.nRows (startSample onset s r) (endSample onset s d r)).length

/-- The pandas exception raised by a failed scalar `.loc` lookup. -/
inductive PdErr
  | keyError
deriving DecidableEq

/-- The dynamic Python value passed as `baseline_correction`, as the source
dispatches on it: a bool, a two-element list (entries possibly `None`), an
int, a float, or anything else. -/
inductive Policy where
  | pbool : Bool → Policy
  | plist : Option ℚ → Option ℚ → Policy
  | pint : ℤ → Policy
  | pfloat : ℚ → Policy
  | pother : Policy
deriving DecidableEq

/-- `epoch - baseline` where `baseline = epoch.loc[...].mean()` is the
column-wise mean over the masked rows: every column present in the frame is
shifted by its own baseline mean (pandas aligns the Series by column name). -/
def subCols (e : Epoch) (mask : List Bool) : Epoch :=
  { e with cols := e.cols.map (fun c => c.map (fun x => x - qMean (maskSelect mask c))) }

/-- Row positions whose index label equals `v` (`Index.get_loc` semantics). -/
def locPositions (idx : List ℚ) (v : ℚ) : List ℕ :=
  (idx.enum.filter (fun p => decide (p.2 = v))).map (fun p => p.1)

/-- `baseline = epoch.loc[v].mean()` followed by `epoch - baseline`, line 134:
no matching row raises `KeyError`; a unique match returns the row as a Series
whose `.mean()` is a scalar (the mean of that row across ALL columns), which
is then subtracted from every entry; duplicated labels return a sub-frame
whose `.mean()` is again column-wise. -/
def scalarLoc (e : Epoch) (v : ℚ) (policy : Policy) : Except PdErr Epoch × Policy :=
  match locPositions e.index v with
  | [] => (.error .keyError, policy)
  | [p] =>
      let c := qMean (e.cols.map (fun col => col.getD p 0))
      (.ok { e with cols := e.cols.map (fun col => col.map (fun x => x - c)) }, policy)
  | ps =>
      (.ok { e with
          cols := e.cols.map (fun col => col.map (fun x => x - qMean (pySel col ps))) },
        policy)

/-- `_epochs_create_baseline` (source lines 119-141).  Returns the corrected
epoch (or the pandas error) together with the final contents of the
`baseline_correction` argument: the list branch overwrites `None` entries in
the caller's list in place (lines 121-124).  Python `bool` is a subclass of
`int`, so a bare `False` (unreachable from `epochs_create`, which guards with
`is not False`) falls into the `isinstance(..., int)` branch with value 0. -/
def epochsCreateBaseline (e : Epoch) (policy : Policy) (epochs_start : ℚ) :
    Except PdErr Epoch × Policy :=
  match policy with
  | .plist lo hi =>
      let lo' := lo.getD epochs_start
      let hi' := hi.getD 0
      (.ok (subCols e (rangeMask e.index lo' hi')), .plist (some lo') (some hi'))
  | .pbool true =>
      if epochs_start ≤ 0 then (.ok (subCols e (leMask e.index 0)), policy)
      else (.ok (subCols e (leMask e.index epochs_start)), policy)
  | .pbool false => scalarLoc e 0 policy
  | .pint v => scalarLoc e (v : ℚ) policy
  | .pfloat _ => (.ok e, policy)
  | .pother => (.ok e, policy)

/-- The value held by the caller's `baseline_correction` object after one pass
through `_epochs_create_baseline`: only the list branch writes to it. -/
def resolvePolicy (p : Policy) (st : ℚ) : Policy :=
  match p with
  | .plist lo hi => .plist (some (lo.getD st)) (some (hi.getD 0))
  | q => q

/-- One resolved event record (after the Parameter Normalizer). -/
structure EventRec where
  onset : ℤ
  label : String
  condition : Option String
deriving DecidableEq

/-- Lines 102-104: append the constant `Label` column and, when the condition
is present, the constant `Condition` column. -/
def tagEpoch (e : Epoch) (ev : EventRec) : Epoch :=
  { e with label := some ev.label, condition := ev.condition }

/-- The per-event loop of `epochs_create` (lines 84-107), threading the
`baseline_correction` object through the iterations (the same Python list is
passed to every call) and propagating a pandas exception. -/
def epochsLoop (data : SigTable) (r dur st : ℚ) :
    List EventRec → Policy → Except PdErr (List (String × Epoch)) × Policy
  | [], pol => (.ok [], pol)
  | ev :: rest, pol =>
      let e := makeEpoch data ev.onset st dur r
      let step : Except PdErr Epoch × Policy :=
        if pol = .pbool false then (.ok e, pol) else epochsCreateBaseline e pol st
      match step with
      | (.error err, pol') => (.error err, pol')
      | (.ok e1, pol') =>
          match epochsLoop data r dur st rest pol' with
          | (.error err, pol2) => (.error err, pol2)
          | (.ok l, pol2) => (.ok ((ev.label, tagEpoch e1 ev) :: l), pol2)

/-- `epochs_create` for scalar `epochs_start` / `epochs_duration`: the epoch
collection in event order, plus the final contents of the mutable inputs
(`baseline_correction`, `data`, `events`).  The source never writes to `data`
(line 91 slices into a `.copy()`) or to `events` (lines 70-73 only read). -/
def epochsCreate (data : SigTable) (events : List EventRec) (r dur st : ℚ)
    (policy : Policy) :
    Except PdErr (List (String × Epoch)) × Policy × SigTable × List EventRec :=
  let res := epochsLoop data r dur st events policy
  (res.1, res.2, data, events)

end EpochsCreate

deriving instance DecidableEq for Except

namespace EpochsCreate

/-! ## Helper lemmas -/

theorem linspace_length (s e : ℚ) (n : ℕ) : (linspace s e n).length = n := by
  unfold linspace
  split <;> simp

theorem linspace_getD (s e : ℚ) {n : ℕ} (hn : 1 < n) {i : ℕ} (hi : i < n) :
    (linspace s e n).getD i 0 = s + (i : ℚ) * ((e - s) / ((n : ℚ) - 1)) := by
  unfold linspace
  rw [if_neg (by omega)]
  rw [List.getD_eq_getElem?_getD, List.getElem?_map, List.getElem?_range hi]
  rfl

theorem sum_map_sub (l : List ℚ) (a : ℚ) :
    (l.map (fun x => x - a)).sum = l.sum - l.length * a := by
  induction l with
  | nil => simp
  | cons x xs ih => simp [ih]; ring

theorem qMean_sub (l : List ℚ) (a : ℚ) (h : l ≠ []) :
    qMean (l.map (fun x => x - a)) = qMean l - a := by
  have hl : (l.length : ℚ) ≠ 0 := by exact_mod_cast (List.length_pos.mpr h).ne'
  unfold qMean
  rw [List.length_map, sum_map_sub]
  field_simp

theorem qMean_center (l : List ℚ) (h : l ≠ []) :
    qMean (l.map (fun x => x - qMean l)) = 0 := by
  rw [qMean_sub l _ h, sub_self]

theorem maskSelect_map (mask : List Bool) (c : List ℚ) (f : ℚ → ℚ) :
    maskSelect mask (c.map f) = (maskSelect mask c).map f := by
  induction mask generalizing c with
  | nil => simp [maskSelect]
  | cons b ms ih =>
      cases c with
      | nil => simp [maskSelect]
      | cons x xs =>
          simp only [maskSelect, List.map_cons, List.zip_cons_cons, List.filterMap_cons]
          cases b with
          | false => simpa [maskSelect] using ih xs
          | true => simpa [maskSelect] using ih xs

theorem range_filter_Ico (a b N : ℕ) :
    (List.range N).filter (fun i => decide (a ≤ i ∧ i < b)) =
      List.range' a (min b N - a) := by
  induction N with
  | zero => simp
  | succ n ih =>
      rw [List.range_succ, List.filter_append, ih]
      by_cases h : a ≤ n ∧ n < b
      · have h1 : min b (n + 1) - a = (min b n - a) + 1 := by omega
        have h2 : List.filter (fun i => decide (a ≤ i ∧ i < b)) [n] = [n] := by
          simp [h.1, h.2]
        rw [h2, h1, List.range'_1_concat]
        have h3 : a + (min b n - a) = n := by omega
        rw [h3]
      · have h1 : min b (n + 1) - a = min b n - a := by omega
        have h2 : List.filter (fun i => decide (a ≤ i ∧ i < b)) [n] = [] := by
          have hd : decide (a ≤ n ∧ n < b) = false := by simpa using h
          simp [List.filter, hd]
        rw [h2, h1, List.append_nil]

theorem effIdx_eq (N : ℕ) (x : ℤ) : effIdx N x = min (pyWrap N x).toNat N := by
  unfold effIdx pyWrap
  split
  · omega
  · rfl

theorem specClipIdx_eq_range' (N : ℕ) (wa wb : ℤ) :
    specClipIdx N wa wb = List.range' wa.toNat (min wb.toNat N - wa.toNat) := by
  unfold specClipIdx
  rw [List.filter_congr (q := fun i => decide (wa.toNat ≤ i ∧ i < wb.toNat)) ?_,
    range_filter_Ico]
  intro i _
  simp only [decide_eq_decide]
  omega

theorem truncQ_intCast (z : ℤ) : truncQ (z : ℚ) = z := by
  unfold truncQ
  split <;> simp

/-- When `start_offset * rate` and `duration * rate` are integers `m` and `k`,
the code's truncated bounds take the closed form `onset + m` and
`onset + m + k`. -/
theorem sample_bounds_int (onset m k : ℤ) (s d r : ℚ)
    (hm : s * r = (m : ℚ)) (hk : d * r = (k : ℚ)) :
    startSample onset s r = onset + m ∧ endSample onset s d r = onset + m + k := by
  have h1 : (onset : ℚ) + s * r = ((onset + m : ℤ) : ℚ) := by
    rw [hm]; push_cast; ring
  have h2 : ((onset : ℚ) + s * r) + d * r = ((onset + m + k : ℤ) : ℚ) := by
    rw [hm, hk]; push_cast; ring
  constructor
  · unfold startSample
    rw [h1, truncQ_intCast]
  · unfold endSample
    rw [h2, truncQ_intCast]

theorem makeEpoch_index (data : SigTable) (onset : ℤ) (s d r : ℚ) :
    (makeEpoch data onset s d r).index = linspace s (s + d) (sliceLen data onset s d r) := rfl

theorem sliceLen_eq (data : SigTable) (onset : ℤ) (s d r : ℚ) :
    sliceLen data onset s d r =
      effIdx data.nRows (endSample onset s d r) - effIdx data.nRows (startSample onset s r) := by
  unfold sliceLen pySliceIdx
  exact List.length_range' _ _ _

/-! ## Claim C1 -/

/-- Claim C1, counterexample.  Signal table of 5 rows, event at onset 1 with
`start_offset = -3`, `duration = 5`, `sampling_rate = 1`: the computed bounds
are `start_sample = -2`, `end_sample = 3`.  The claim says the epoch consists
of the in-range rows `0, 1, 2`; the code's Python slice `iloc[-2:3]` resolves
`-2` to row `5 - 2 = 3` and returns NO rows at all. -/
theorem c1_counterexample :
    (makeEpoch ⟨5, ["S"], [[1, 2, 3, 4, 5]]⟩ 1 (-3) 5 1).index.length = 0 ∧
    (makeEpoch ⟨5, ["S"], [[1, 2, 3, 4, 5]]⟩ 1 (-3) 5 1).cols = [[], []] ∧
    startSample 1 (-3) 1 = -2 ∧ endSample 1 (-3) 5 1 = 3 ∧
    specClipIdx 5 (-2) 3 = [0, 1, 2] := by
  refine ⟨by decide!, by decide!, by decide!, by decide!, by decide!⟩

/-- Claim C1, amended: the rows selected for an epoch follow Python slice
semantics, not plain clipping.  A negative bound `x` first wraps to the
absolute position `x + N` (counting from the end of the table); the slice
then consists exactly of the in-range rows `[wrap(start_sample),
wrap(end_sample))` in their original order, and no error is raised.  For
nonnegative bounds `pyWrap` is the identity, so the original clipping claim
holds in that case. -/
theorem c1_amended (N : ℕ) (a b : ℤ) :
    pySliceIdx N a b = specClipIdx N (pyWrap N a) (pyWrap N b) := by
  rw [specClipIdx_eq_range']
  unfold pySliceIdx
  rw [effIdx_eq, effIdx_eq]
  rcases le_or_lt (pyWrap N a).toNat N with h | h
  · rw [min_eq_left h]
  · have hle : min (pyWrap N b).toNat N ≤ N := by omega
    have h1 : min (pyWrap N a).toNat N = N := by omega
    have h2 : min (pyWrap N b).toNat N - N = 0 := by omega
    have h3 : min (pyWrap N b).toNat N - (pyWrap N a).toNat = 0 := by omega
    rw [h1, h2, h3]
    simp

/-! ## Claim C3 -/

/-- Claim C3, counterexample.  With `onset = 0`, `start_offset = 0.16`,
`sampling_rate = 10`, the claimed bound is `0 + round(1.6) = 2`, but the code
computes `int(0 + 1.6) = 1` (Python `int()` truncates). -/
theorem c3_counterexample :
    startSample 0 (16/100) 10 = 1 ∧
    (0 : ℤ) + round ((16/100 : ℚ) * 10) = 2 ∧
    startSample 0 (16/100) 10 ≠ (0 : ℤ) + round ((16/100 : ℚ) * 10) := by
  refine ⟨by decide!, by decide!, by decide!⟩

/-- Claim C3, amended: the bounds are truncated toward zero (Python `int()`),
not rounded: `start_sample = int(onset + start_offset*rate)` and
`end_sample = int((onset + start_offset*rate) + duration*rate)` (the second
`int` applies to the untruncated start).  When `start_offset*rate` and
`duration*rate` are integers `m` and `k` — in particular for integral-second
offsets at an integral sampling rate — this coincides with the claimed
rounding formula: `start_sample = onset + m` and
`end_sample = start_sample + k`. -/
theorem c3_amended (onset m k : ℤ) (s d r : ℚ)
    (hm : s * r = (m : ℚ)) (hk : d * r = (k : ℚ)) :
    startSample onset s r = onset + m ∧
    endSample onset s d r = startSample onset s r + k := by
  obtain ⟨h1, h2⟩ := sample_bounds_int onset m k s d r hm hk
  exact ⟨h1, by rw [h1, h2]⟩

/-- Witness for `c3_amended` at `onset = 5`, `s = -1`, `r = 2`, `d = 3/2`. -/
theorem c3_amended_witness :
    ((-1 : ℚ) * 2 = ((-2 : ℤ) : ℚ)) ∧ ((3/2 : ℚ) * 2 = ((3 : ℤ) : ℚ)) ∧
    (startSample 5 (-1) 2 = 5 + (-2) ∧
      endSample 5 (-1) (3/2) 2 = startSample 5 (-1) 2 + 3) :=
  ⟨by decide!, by decide!, c3_amended 5 (-2) 3 (-1) (3/2) 2 (by decide!) (by decide!)⟩

/-! ## Claim C4 -/

/-- Claim C4, counterexample.  Five-row table, `onset = 0`,
`start_offset = 0`, `duration = 0.16`, `sampling_rate = 10`: the bounds
`[0, 1)` lie strictly inside the table (no clipping: `0 ≤ 0` and `1 ≤ 5`),
yet the epoch has 1 row while the claim demands `round(1.6) = 2`. -/
theorem c4_counterexample :
    (makeEpoch ⟨5, ["S"], [[0, 1, 2, 3, 4]]⟩ 0 0 (16/100) 10).index.length = 1 ∧
    round ((16/100 : ℚ) * 10) = 2 ∧
    startSample 0 0 10 = 0 ∧ endSample 0 0 (16/100) 10 = 1 ∧
    (0 : ℤ) ≤ startSample 0 0 10 ∧ endSample 0 0 (16/100) 10 ≤ 5 := by
  refine ⟨by decide!, by decide!, by decide!, by decide!, by decide!, by decide!⟩

/-- Claim C4, amended: when the truncated bounds lie inside the table
(`0 ≤ start_sample ≤ end_sample ≤ N`), the epoch has exactly
`end_sample - start_sample` rows, where the bounds truncate toward zero
rather than round; when additionally `start_offset*rate` and `duration*rate`
are integers, this equals `duration*rate = round(duration*rate)`, recovering
the claimed count in that case. -/
theorem c4_amended (data : SigTable) (onset : ℤ) (s d r : ℚ)
    (h0 : 0 ≤ startSample onset s r)
    (h1 : startSample onset s r ≤ endSample onset s d r)
    (h2 : endSample onset s d r ≤ (data.nRows : ℤ)) :
    (((makeEpoch data onset s d r).index.length : ℤ) =
      endSample onset s d r - startSample onset s r) ∧
    ∀ m k : ℤ, s * r = (m : ℚ) → d * r = (k : ℚ) →
      ((makeEpoch data onset s d r).index.length : ℤ) = k ∧ round (d * r) = k := by
  have hlen : (makeEpoch data onset s d r).index.length = sliceLen data onset s d r := by
    rw [makeEpoch_index, linspace_length]
  have ha : effIdx data.nRows (startSample onset s r) = (startSample onset s r).toNat := by
    unfold effIdx
    rw [if_neg (by omega)]
    omega
  have hb : effIdx data.nRows (endSample onset s d r) = (endSample onset s d r).toNat := by
    unfold effIdx
    rw [if_neg (by omega)]
    omega
  have hmain : ((makeEpoch data onset s d r).index.length : ℤ) =
      endSample onset s d r - startSample onset s r := by
    rw [hlen, sliceLen_eq, ha, hb]
    omega
  refine ⟨hmain, fun m k hm hk => ?_⟩
  obtain ⟨hs, he⟩ := sample_bounds_int onset m k s d r hm hk
  constructor
  · rw [hmain, hs, he]
    ring
  · rw [hk]
    exact round_intCast k

/-- Witness for `c4_amended`: table of 10 rows, `onset = 2`, `s = 1/2`,
`d = 3`, `r = 2`, giving bounds `[3, 9)` and 6 rows. -/
theorem c4_amended_witness :
    ((0 : ℤ) ≤ startSample 2 (1/2) 2) ∧
    (startSample 2 (1/2) 2 ≤ endSample 2 (1/2) 3 2) ∧
    (endSample 2 (1/2) 3 2 ≤ ((10 : ℕ) : ℤ)) ∧
    ((((makeEpoch ⟨10, [], []⟩ 2 (1/2) 3 2).index.length : ℤ) =
        endSample 2 (1/2) 3 2 - startSample 2 (1/2) 2) ∧
      ∀ m k : ℤ, (1/2 : ℚ) * 2 = (m : ℚ) → (3 : ℚ) * 2 = (k : ℚ) →
        (((makeEpoch ⟨10, [], []⟩ 2 (1/2) 3 2).index.length : ℤ) = k ∧
          round ((3 : ℚ) * 2) = k)) :=
  ⟨by decide!, by decide!, by decide!,
    c4_amended ⟨10, [], []⟩ 2 (1/2) 3 2 (by decide!) (by decide!) (by decide!)⟩

/-! ## Claim C5 -/

/-- Claim C5, confirmed: the relative-time index of every epoch is an evenly
spaced sequence of length equal to the sliced row count; when that count
exceeds 1 (and the duration is positive, as the data model requires), it is
strictly increasing with first element `start_offset`, last element
`start_offset + duration`, and constant spacing `duration / (count - 1)`;
a single-row or empty slice still gets an index of the matching length. -/
theorem c5_index_shape (data : SigTable) (onset : ℤ) (s d r : ℚ) (hd : 0 < d) :
    (makeEpoch data onset s d r).index.length = sliceLen data onset s d r ∧
    (1 < sliceLen data onset s d r →
      (makeEpoch data onset s d r).index.getD 0 0 = s ∧
      (makeEpoch data onset s d r).index.getD (sliceLen data onset s d r - 1) 0 = s + d ∧
      ∀ i, i + 1 < sliceLen data onset s d r →
        (makeEpoch data onset s d r).index.getD (i + 1) 0 -
            (makeEpoch data onset s d r).index.getD i 0 =
          d / ((sliceLen data onset s d r : ℚ) - 1) ∧
        (makeEpoch data onset s d r).index.getD i 0 <
          (makeEpoch data onset s d r).index.getD (i + 1) 0) := by
  set n := sliceLen data onset s d r with hn
  have hidx : (makeEpoch data onset s d r).index = linspace s (s + d) n := makeEpoch_index _ _ _ _ _
  refine ⟨by rw [hidx, linspace_length], fun h1n => ?_⟩
  have hq : (s + d - s) = d := by ring
  have hcast : (1 : ℚ) < (n : ℚ) := by exact_mod_cast h1n
  have hne : ((n : ℚ) - 1) ≠ 0 := by linarith
  have hpos : 0 < d / ((n : ℚ) - 1) := div_pos hd (by linarith)
  refine ⟨?_, ?_, fun i hi => ?_⟩
  · rw [hidx, linspace_getD s (s + d) h1n (by omega)]
    push_cast
    ring
  · rw [hidx, linspace_getD s (s + d) h1n (by omega)]
    have hsub : ((n - 1 : ℕ) : ℚ) = (n : ℚ) - 1 := by
      have : (1 : ℕ) ≤ n := by omega
      push_cast [Nat.cast_sub this]
      ring
    rw [hq, hsub]
    field_simp
  · have hgi : (makeEpoch data onset s d r).index.getD i 0 =
        s + (i : ℚ) * (d / ((n : ℚ) - 1)) := by
      rw [hidx, linspace_getD s (s + d) h1n (by omega), hq]
    have hgi1 : (makeEpoch data onset s d r).index.getD (i + 1) 0 =
        s + ((i : ℚ) + 1) * (d / ((n : ℚ) - 1)) := by
      rw [hidx, linspace_getD s (s + d) h1n (by omega), hq]
      push_cast
      ring
    constructor
    · rw [hgi, hgi1]
      ring
    · rw [hgi, hgi1]
      have : (i : ℚ) * (d / ((n : ℚ) - 1)) < ((i : ℚ) + 1) * (d / ((n : ℚ) - 1)) := by
        nlinarith
      linarith

/-- Witness for `c5_index_shape`: 5-row table, `onset = 0`, `s = 0`, `d = 1`,
`r = 3`, yielding the 3-point index `[0, 1/2, 1]`. -/
theorem c5_index_shape_witness :
    ((0 : ℚ) < 1) ∧ sliceLen ⟨5, ["S"], [[0, 0, 0, 0, 0]]⟩ 0 0 1 3 = 3 ∧
    ((makeEpoch ⟨5, ["S"], [[0, 0, 0, 0, 0]]⟩ 0 0 1 3).index.length =
        sliceLen ⟨5, ["S"], [[0, 0, 0, 0, 0]]⟩ 0 0 1 3 ∧
      (1 < sliceLen ⟨5, ["S"], [[0, 0, 0, 0, 0]]⟩ 0 0 1 3 →
        (makeEpoch ⟨5, ["S"], [[0, 0, 0, 0, 0]]⟩ 0 0 1 3).index.getD 0 0 = 0 ∧
        (makeEpoch ⟨5, ["S"], [[0, 0, 0, 0, 0]]⟩ 0 0 1
              3).index.getD (sliceLen ⟨5, ["S"], [[0, 0, 0, 0, 0]]⟩ 0 0 1 3 - 1) 0 = 0 + 1 ∧
        ∀ i, i + 1 < sliceLen ⟨5, ["S"], [[0, 0, 0, 0, 0]]⟩ 0 0 1 3 →
          (makeEpoch ⟨5, ["S"], [[0, 0, 0, 0, 0]]⟩ 0 0 1 3).index.getD (i + 1) 0 -
              (makeEpoch ⟨5, ["S"], [[0, 0, 0, 0, 0]]⟩ 0 0 1 3).index.getD i 0 =
            1 / ((sliceLen ⟨5, ["S"], [[0, 0, 0, 0, 0]]⟩ 0 0 1 3 : ℚ) - 1) ∧
          (makeEpoch ⟨5, ["S"], [[0, 0, 0, 0, 0]]⟩ 0 0 1 3).index.getD i 0 <
            (makeEpoch ⟨5, ["S"], [[0, 0, 0, 0, 0]]⟩ 0 0 1 3).index.getD (i + 1) 0)) :=
  ⟨by decide!, by decide!, c5_index_shape ⟨5, ["S"], [[0, 0, 0, 0, 0]]⟩ 0 0 1 3 (by decide!)⟩

/-! ## Policy bookkeeping lemmas -/

theorem scalarLoc_snd (e : Epoch) (v : ℚ) (pol : Policy) :
    (scalarLoc e v pol).2 = pol := by
  unfold scalarLoc
  rcases hl : locPositions e.index v with _ | ⟨p, _ | ⟨q, ps⟩⟩ <;> rfl

theorem ecb_snd (e : Epoch) (p : Policy) (st : ℚ) :
    (epochsCreateBaseline e p st).2 = resolvePolicy p st := by
  cases p with
  | plist lo hi => rfl
  | pbool b =>
      cases b with
      | true =>
          simp only [epochsCreateBaseline, resolvePolicy]
          split <;> rfl
      | false => exact scalarLoc_snd e 0 (.pbool false)
  | pint v => exact scalarLoc_snd e (v : ℚ) (.pint v)
  | pfloat q => rfl
  | pother => rfl

theorem resolvePolicy_idem (p : Policy) (st : ℚ) :
    resolvePolicy (resolvePolicy p st) st = resolvePolicy p st := by
  cases p <;> rfl

theorem resolvePolicy_false (p : Policy) (st : ℚ) :
    resolvePolicy p st = .pbool false ↔ p = .pbool false := by
  cases p <;> simp [resolvePolicy]

theorem ecb_fst_resolve (e : Epoch) (p : Policy) (st : ℚ) :
    (epochsCreateBaseline e (resolvePolicy p st) st).1 =
      (epochsCreateBaseline e p st).1 := by
  cases p <;> rfl

theorem epochsLoop_snd (data : SigTable) (r dur st : ℚ) :
    ∀ (evs : List EventRec) (p : Policy), evs ≠ [] →
      (epochsLoop data r dur st evs p).2 = resolvePolicy p st := by
  intro evs
  induction evs with
  | nil => intro p h; exact absurd rfl h
  | cons ev rest ih =>
      intro p _
      simp only [epochsLoop]
      rcases hstep : (if p = Policy.pbool false
          then ((Except.ok (makeEpoch data ev.onset st dur r), p) :
            Except PdErr Epoch × Policy)
          else epochsCreateBaseline (makeEpoch data ev.onset st dur r) p st) with
        ⟨res, pol1⟩
      have hpol1 : pol1 = resolvePolicy p st := by
        by_cases hp : p = Policy.pbool false
        · rw [if_pos hp] at hstep
          cases hstep
          rw [hp]
          rfl
        · rw [if_neg hp] at hstep
          have h := ecb_snd (makeEpoch data ev.onset st dur r) p st
          rw [hstep] at h
          exact h
      cases res with
      | error err => simpa using hpol1
      | ok e1 =>
          rcases hrec : epochsLoop data r dur st rest pol1 with ⟨res2, pol2⟩
          have hpol2 : pol2 = resolvePolicy p st := by
            cases rest with
            | nil =>
                have : (Except.ok ([] : List (String × Epoch)), pol1) = (res2, pol2) := hrec
                cases this
                exact hpol1
            | cons b bs =>
                have h2 := ih pol1 (by simp)
                rw [hrec] at h2
                have h3 : pol2 = resolvePolicy pol1 st := h2
                rw [h3, hpol1, resolvePolicy_idem]
          cases res2 <;> simpa [hrec] using hpol2

theorem epochsLoop_fst_resolve (data : SigTable) (r dur st : ℚ) :
    ∀ (evs : List EventRec) (p : Policy),
      (epochsLoop data r dur st evs (resolvePolicy p st)).1 =
        (epochsLoop data r dur st evs p).1 := by
  intro evs
  induction evs with
  | nil => intro p; rfl
  | cons ev rest ih =>
      intro p
      by_cases hp : p = Policy.pbool false
      · subst hp
        rfl
      · have hneg2 : resolvePolicy p st ≠ Policy.pbool false := fun h =>
          hp ((resolvePolicy_false p st).mp h)
        simp only [epochsLoop]
        rw [if_neg hp, if_neg hneg2]
        rcases hecb : epochsCreateBaseline (makeEpoch data ev.onset st dur r) p st with
          ⟨res, pol1⟩
        have hpol1 : pol1 = resolvePolicy p st := by
          have h := ecb_snd (makeEpoch data ev.onset st dur r) p st
          rw [hecb] at h
          exact h
        have h1 : epochsCreateBaseline (makeEpoch data ev.onset st dur r)
            (resolvePolicy p st) st = (res, resolvePolicy p st) := by
          have ha := ecb_fst_resolve (makeEpoch data ev.onset st dur r) p st
          rw [hecb] at ha
          have hb := ecb_snd (makeEpoch data ev.onset st dur r) (resolvePolicy p st) st
          rw [resolvePolicy_idem] at hb
          exact Prod.ext ha hb
        rw [h1, hpol1]

/-! ## Claim C6 -/

/-- Claim C6, confirmed: with a two-element `baseline_correction` list, a
`None` low bound defaults to `epochs_start` (the event's start offset in the
scalar-broadcast case) and a `None` high bound defaults to 0, after which the
baseline window is the rows with relative time in `[lo, hi]`; the corrected
epoch equals the one obtained from the explicit bounds.  In particular
`[None, 0]` with `start_offset = -1` behaves exactly like `[-1, 0]`. -/
theorem c6_baseline_defaults (e : Epoch) (st : ℚ) (lo hi : Option ℚ) :
    (epochsCreateBaseline e (.plist lo hi) st).1 =
      (epochsCreateBaseline e (.plist (some (lo.getD st)) (some (hi.getD 0))) st).1 ∧
    (epochsCreateBaseline e (.plist none (some 0)) (-1)).1 =
      (epochsCreateBaseline e (.plist (some (-1)) (some 0)) (-1)).1 :=
  ⟨rfl, rfl⟩

/-! ## Claim C7 -/

/-- Claim C7, counterexample.  A two-row epoch with relative times `[0, 1]`
and `baseline_correction = 5` (an int referencing a non-existent relative
time): the claim says the call does not crash and yields an all-undefined
baseline, but the scalar `.loc[5]` lookup raises `KeyError`. -/
theorem c7_counterexample :
    (epochsCreateBaseline ⟨[0, 1], ["S"], [[5, 7]], none, none⟩ (.pint 5) 0).1 =
      .error .keyError := by
  decide!

/-- Claim C7, amended: only a Python `int` value `v` selects the single-row
branch (floats fall through to the default branch, which subtracts a zero
baseline and leaves the epoch unchanged).  When exactly one row has relative
time `v`, the baseline is the SCALAR mean of that row taken across all
columns, subtracted from every entry of the epoch; when no row has relative
time `v`, the `.loc[v]` lookup raises `KeyError` — the call crashes instead
of silently producing undefined values. -/
theorem c7_amended (e : Epoch) (st : ℚ) (v : ℤ) (p : ℕ) :
    (locPositions e.index (v : ℚ) = [] →
      epochsCreateBaseline e (.pint v) st = (.error .keyError, .pint v)) ∧
    (locPositions e.index (v : ℚ) = [p] →
      (epochsCreateBaseline e (.pint v) st).1 =
        .ok { e with cols := e.cols.map (fun col => col.map (fun x =>
          x - qMean (e.cols.map (fun col => col.getD p 0)))) }) ∧
    ∀ q : ℚ, (epochsCreateBaseline e (.pfloat q) st).1 = .ok e := by
  refine ⟨fun h => ?_, fun h => ?_, fun q => rfl⟩
  · show scalarLoc e (v : ℚ) (.pint v) = _
    unfold scalarLoc
    rw [h]
  · show (scalarLoc e (v : ℚ) (.pint v)).1 = _
    unfold scalarLoc
    rw [h]

/-- Witness for `c7_amended`: relative times `[0, 1]` do not contain 3, so
the lookup raises `KeyError`. -/
theorem c7_amended_witness :
    (locPositions (Epoch.index ⟨[0, 1], ["A"], [[1, 2]], none, none⟩) ((3 : ℤ) : ℚ) = []) ∧
    epochsCreateBaseline ⟨[0, 1], ["A"], [[1, 2]], none, none⟩ (.pint 3) 0 =
      (.error .keyError, .pint 3) :=
  ⟨by decide!, (c7_amended ⟨[0, 1], ["A"], [[1, 2]], none, none⟩ 0 3 0).1 (by decide!)⟩

/-! ## Claim C8 -/

/-- Claim C8, confirmed: with `baseline_correction = True` and
`epochs_start ≤ 0`, the baseline window is the set of rows with relative time
`≤ 0` (`epoch.loc[:0]`), and after the correction the column-wise mean of the
epoch over exactly those rows is 0 for every column, provided the window is
nonempty in every column (as in the spec's concrete instance with rows at
relative times `-0.2, -0.1, 0, ..., 0.8`). -/
theorem c8_true_baseline (e : Epoch) (st : ℚ) (e' : Epoch)
    (hst : st ≤ 0)
    (hw : ∀ c ∈ e.cols, maskSelect (leMask e.index 0) c ≠ [])
    (hok : (epochsCreateBaseline e (.pbool true) st).1 = .ok e') :
    e'.index = e.index ∧
    ∀ j, j < e'.cols.length →
      qMean (maskSelect (leMask e'.index 0) (e'.cols.getD j [])) = 0 := by
  have hbranch : (epochsCreateBaseline e (.pbool true) st).1 =
      .ok (subCols e (leMask e.index 0)) := by
    unfold epochsCreateBaseline
    rw [if_pos hst]
  rw [hbranch] at hok
  have he' : e' = subCols e (leMask e.index 0) := (Except.ok.inj hok).symm
  subst he'
  refine ⟨rfl, fun j hj => ?_⟩
  have hcols : (subCols e (leMask e.index 0)).cols =
      e.cols.map (fun c => c.map (fun x => x - qMean (maskSelect (leMask e.index 0) c))) :=
    rfl
  rw [hcols] at hj ⊢
  rw [List.length_map] at hj
  rw [List.getD_eq_getElem?_getD, List.getElem?_map, List.getElem?_eq_getElem hj]
  simp only [Option.map_some', Option.getD_some]
  have hm : (subCols e (leMask e.index 0)).index = e.index := rfl
  rw [hm, maskSelect_map]
  exact qMean_center _ (hw _ (List.getElem_mem hj))

/-- Witness for `c8_true_baseline`: the spec's concrete instance — an
11-row epoch at relative times `-0.2, -0.1, 0, 0.1, ..., 0.8` (here with
channel values `1..11`); the corrected channel is `-1..9` and its mean over
the rows `≤ 0` is 0. -/
theorem c8_true_baseline_witness :
    ((-1/5 : ℚ) ≤ 0) ∧
    qMean (maskSelect
      (leMask (Epoch.index ⟨[-2/10, -1/10, 0, 1/10, 2/10, 3/10, 4/10, 5/10, 6/10, 7/10, 8/10],
        ["Signal"], [[-1, 0, 1, 2, 3, 4, 5, 6, 7, 8, 9]], none, none⟩) 0)
      ((Epoch.cols ⟨[-2/10, -1/10, 0, 1/10, 2/10, 3/10, 4/10, 5/10, 6/10, 7/10, 8/10],
        ["Signal"], [[-1, 0, 1, 2, 3, 4, 5, 6, 7, 8, 9]], none, none⟩).getD 0 [])) = 0 :=
  ⟨by decide!,
    (c8_true_baseline
      ⟨[-2/10, -1/10, 0, 1/10, 2/10, 3/10, 4/10, 5/10, 6/10, 7/10, 8/10],
        ["Signal"], [[1, 2, 3, 4, 5, 6, 7, 8, 9, 10, 11]], none, none⟩
      (-1/5)
      ⟨[-2/10, -1/10, 0, 1/10, 2/10, 3/10, 4/10, 5/10, 6/10, 7/10, 8/10],
        ["Signal"], [[-1, 0, 1, 2, 3, 4, 5, 6, 7, 8, 9]], none, none⟩
      (by decide!) (by decide!) (by decide!)).2 0 (by decide!)⟩

/-! ## Claim C10 -/

/-- Claim C10, confirmed: when `baseline_correction` is a two-element list
with a `None` in either position, `_epochs_create_baseline` overwrites those
entries of the caller's list in place — position 0 with `epochs_start`,
position 1 with 0 — so the caller's list holds a different value after the
call; through `epochs_create` (any nonempty event list) the caller's list
likewise ends up fully resolved. -/
theorem c10_policy_mutation (e : Epoch) (st : ℚ) (lo hi : Option ℚ)
    (h : lo = none ∨ hi = none) :
    (epochsCreateBaseline e (.plist lo hi) st).2 =
      .plist (some (lo.getD st)) (some (hi.getD 0)) ∧
    (epochsCreateBaseline e (.plist lo hi) st).2 ≠ .plist lo hi ∧
    ∀ (data : SigTable) (evs : List EventRec) (r dur : ℚ) (ev : EventRec),
      (epochsCreate data (ev :: evs) r dur st (.plist lo hi)).2.1 =
        .plist (some (lo.getD st)) (some (hi.getD 0)) := by
  refine ⟨rfl, ?_, fun data evs r dur ev => ?_⟩
  · intro heq
    rcases h with h | h
    · subst h
      have := (Policy.plist.inj heq).1
      exact Option.noConfusion this
    · subst h
      have := (Policy.plist.inj heq).2
      exact Option.noConfusion this
  · show (epochsLoop data r dur st (ev :: evs) (.plist lo hi)).2 = _
    rw [epochsLoop_snd data r dur st (ev :: evs) (.plist lo hi) (by simp)]
    rfl

/-- Witness for `c10_policy_mutation`: `baseline_correction = [None, 2]` with
`epochs_start = 7` comes back as `[7, 2]` from a one-event `epochs_create`. -/
theorem c10_policy_mutation_witness :
    ((none : Option ℚ) = none ∨ (some (2 : ℚ)) = none) ∧
    (epochsCreate ⟨1, ["S"], [[0]]⟩ [⟨0, "1", none⟩] 1 1 7
        (.plist none (some 2))).2.1 = .plist (some 7) (some 2) :=
  ⟨Or.inl rfl,
    (c10_policy_mutation ⟨[], [], [], none, none⟩ 7 none (some 2) (Or.inl rfl)).2.2
      ⟨1, ["S"], [[0]]⟩ [] 1 1 ⟨0, "1", none⟩⟩

/-! ## Baseline-shift structure lemmas -/

theorem map_getD (l : List (List ℚ)) (f : List ℚ → List ℚ) (j : ℕ) (hj : j < l.length) :
    (l.map f).getD j [] = f (l.getD j []) := by
  rw [List.getD_eq_getElem?_getD, List.getElem?_map, List.getElem?_eq_getElem hj,
    List.getD_eq_getElem?_getD, List.getElem?_eq_getElem hj]
  rfl

/-- Any epoch whose columns arise by subtracting a per-column constant
`g c` from column `c` satisfies the shift description. -/
theorem shift_of_cols_map (e e1 : Epoch) (g : List ℚ → ℚ)
    (h : e1 = { e with cols := e.cols.map (fun c => c.map (fun x => x - g c)) }) :
    e1.index = e.index ∧ e1.names = e.names ∧ e1.label = e.label ∧
    e1.condition = e.condition ∧ e1.cols.length = e.cols.length ∧
    ∀ j, j < e.cols.length →
      ∃ c : ℚ, e1.cols.getD j [] = (e.cols.getD j []).map (fun x => x - c) := by
  subst h
  refine ⟨rfl, rfl, rfl, rfl, List.length_map _ _, fun j hj => ?_⟩
  exact ⟨g (e.cols.getD j []), by
    show (e.cols.map _).getD j [] = _
    rw [map_getD _ _ j hj]⟩

/-- Every successful `_epochs_create_baseline` call shifts each column that
is present by a single per-column constant (the baseline mean), and leaves
the index, the column names and the `Label`/`Condition` metadata fields
untouched. -/
theorem ecb_shift (e : Epoch) (p : Policy) (st : ℚ) (e1 : Epoch)
    (hok : (epochsCreateBaseline e p st).1 = .ok e1) :
    e1.index = e.index ∧ e1.names = e.names ∧ e1.label = e.label ∧
    e1.condition = e.condition ∧ e1.cols.length = e.cols.length ∧
    ∀ j, j < e.cols.length →
      ∃ c : ℚ, e1.cols.getD j [] = (e.cols.getD j []).map (fun x => x - c) := by
  cases p with
  | plist lo hi =>
      have h' : Except.ok (subCols e (rangeMask e.index (lo.getD st) (hi.getD 0))) =
          Except.ok e1 := hok
      exact shift_of_cols_map e e1 _ (Except.ok.inj h').symm
  | pbool b =>
      cases b with
      | true =>
          rcases le_or_lt st 0 with h | h
          · have hok' := hok
            simp only [epochsCreateBaseline, if_pos h, Except.ok.injEq] at hok'
            exact shift_of_cols_map e e1 _ hok'.symm
          · have hok' := hok
            simp only [epochsCreateBaseline, if_neg (not_le.mpr h), Except.ok.injEq] at hok'
            exact shift_of_cols_map e e1 _ hok'.symm
      | false =>
          have hok' : (scalarLoc e 0 (.pbool false)).1 = .ok e1 := hok
          rcases hl : locPositions e.index 0 with _ | ⟨q, _ | ⟨q2, ps⟩⟩
          · simp only [scalarLoc, hl] at hok'
            exact Except.noConfusion hok'
          · simp only [scalarLoc, hl, Except.ok.injEq] at hok'
            exact shift_of_cols_map e e1 _ hok'.symm
          · simp only [scalarLoc, hl, Except.ok.injEq] at hok'
            exact shift_of_cols_map e e1 _ hok'.symm
  | pint v =>
      have hok' : (scalarLoc e (v : ℚ) (.pint v)).1 = .ok e1 := hok
      rcases hl : locPositions e.index (v : ℚ) with _ | ⟨q, _ | ⟨q2, ps⟩⟩
      · simp only [scalarLoc, hl] at hok'
        exact Except.noConfusion hok'
      · simp only [scalarLoc, hl, Except.ok.injEq] at hok'
        exact shift_of_cols_map e e1 _ hok'.symm
      · simp only [scalarLoc, hl, Except.ok.injEq] at hok'
        exact shift_of_cols_map e e1 _ hok'.symm
  | pfloat q =>
      have h' : Except.ok e = Except.ok e1 := hok
      have he : e1 = e := (Except.ok.inj h').symm
      subst he
      refine ⟨rfl, rfl, rfl, rfl, rfl, fun j hj => ⟨0, by simp⟩⟩
  | pother =>
      have h' : Except.ok e = Except.ok e1 := hok
      have he : e1 = e := (Except.ok.inj h').symm
      subst he
      refine ⟨rfl, rfl, rfl, rfl, rfl, fun j hj => ⟨0, by simp⟩⟩

/-! ## Claim C2 -/

/-- Claim C2, counterexample.  Signal `[0, 2, 4, 6]`, event at onset 2,
`start_offset = -2`, `duration = 3`, `sampling_rate = 1`,
`baseline_correction = True`.  The slice takes rows `0, 1, 2`, so the
pre-correction `Index` column is `[0, 1, 2]`; the baseline window mean of
that column is `1/2`, and baseline correction rewrites the `Index` column to
`[-1/2, 1/2, 3/2]` — the `Index` column is NOT unaffected, because line 94
adds it before the correction of line 99 runs. -/
theorem c2_counterexample :
    (makeEpoch ⟨4, ["Signal"], [[0, 2, 4, 6]]⟩ 2 (-2) 3 1).cols.getD 1 [] = [0, 1, 2] ∧
    (epochsCreate ⟨4, ["Signal"], [[0, 2, 4, 6]]⟩ [⟨2, "1", none⟩] 1 3 (-2)
        (.pbool true)).1 =
      .ok [("1", ⟨[-2, -1/2, 1], ["Signal", "Index"],
        [[-1, 1, 3], [-1/2, 1/2, 3/2]], some "1", none⟩)] ∧
    ([(-1 : ℚ)/2, 1/2, 3/2] ≠ [(0 : ℚ), 1, 2]) := by
  refine ⟨by decide!, by decide!, by decide!⟩

/-- Claim C2, amended: baseline correction shifts every column present at
correction time — the signal channels AND the `Index` column, which line 94
adds before the correction runs — each by its own baseline constant; only the
`Label` and `Condition` columns are unaffected, because they are appended
after the correction (lines 102-104). -/
theorem c2_amended (data : SigTable) (ev : EventRec) (r dur st : ℚ) (p : Policy)
    (lbl : String) (e' : Epoch)
    (hok : (epochsCreate data [ev] r dur st p).1 = .ok [(lbl, e')]) :
    e'.label = some ev.label ∧ e'.condition = ev.condition ∧
    e'.index = (makeEpoch data ev.onset st dur r).index ∧
    e'.names = (makeEpoch data ev.onset st dur r).names ∧
    e'.cols.length = (makeEpoch data ev.onset st dur r).cols.length ∧
    ∀ j, j < (makeEpoch data ev.onset st dur r).cols.length →
      ∃ c : ℚ, e'.cols.getD j [] =
        ((makeEpoch data ev.onset st dur r).cols.getD j []).map (fun x => x - c) := by
  have hok' : (epochsLoop data r dur st [ev] p).1 = .ok [(lbl, e')] := hok
  simp only [epochsLoop] at hok'
  by_cases hp : p = Policy.pbool false
  · rw [if_pos hp] at hok'
    simp only [Except.ok.injEq, List.cons.injEq, Prod.mk.injEq, and_true] at hok'
    have he' : e' = tagEpoch (makeEpoch data ev.onset st dur r) ev := hok'.2.symm
    subst he'
    refine ⟨rfl, rfl, rfl, rfl, rfl, fun j hj => ⟨0, ?_⟩⟩
    show (makeEpoch data ev.onset st dur r).cols.getD j [] = _
    simp
  · rw [if_neg hp] at hok'
    rcases hecb : epochsCreateBaseline (makeEpoch data ev.onset st dur r) p st with
      ⟨res, pol1⟩
    rw [hecb] at hok'
    cases res with
    | error err => simp at hok'
    | ok e1 =>
        simp only [Except.ok.injEq, List.cons.injEq, Prod.mk.injEq, and_true] at hok'
        have he' : e' = tagEpoch e1 ev := hok'.2.symm
        subst he'
        have hshift := ecb_shift (makeEpoch data ev.onset st dur r) p st e1
          (by rw [hecb])
        obtain ⟨hi, hn, _, _, hlen, hcols⟩ := hshift
        exact ⟨rfl, rfl, hi, hn, hlen, hcols⟩

/-- Witness for `c2_amended` at the counterexample input; the existential for
`j = 1` exhibits the constant by which the `Index` column was shifted. -/
theorem c2_amended_witness :
    ((epochsCreate ⟨4, ["Signal"], [[0, 2, 4, 6]]⟩ [⟨2, "1", none⟩] 1 3 (-2)
        (.pbool true)).1 =
      .ok [("1", ⟨[-2, -1/2, 1], ["Signal", "Index"],
        [[-1, 1, 3], [-1/2, 1/2, 3/2]], some "1", none⟩)]) ∧
    (1 < (makeEpoch ⟨4, ["Signal"], [[0, 2, 4, 6]]⟩ 2 (-2) 3 1).cols.length) ∧
    ∃ c : ℚ, (Epoch.cols ⟨[-2, -1/2, 1], ["Signal", "Index"],
        [[-1, 1, 3], [-1/2, 1/2, 3/2]], some "1", none⟩).getD 1 [] =
      ((makeEpoch ⟨4, ["Signal"], [[0, 2, 4, 6]]⟩ 2 (-2) 3 1).cols.getD 1 []).map
        (fun x => x - c) :=
  ⟨by decide!, by decide!,
    (c2_amended ⟨4, ["Signal"], [[0, 2, 4, 6]]⟩ ⟨2, "1", none⟩ 1 3 (-2) (.pbool true)
      "1" ⟨[-2, -1/2, 1], ["Signal", "Index"], [[-1, 1, 3], [-1/2, 1/2, 3/2]],
        some "1", none⟩ (by decide!)).2.2.2.2.2 1 (by decide!)⟩

/-! ## Claim C9 -/

/-- Claim C9, confirmed: `epochs_create` never writes to the Signal Table or
the Event Set — the returned final contents of both equal the inputs (the
only in-place write in the whole routine targets the `baseline_correction`
list; every epoch is built from a `.copy()` of the slice, line 91).
Consequently the call is also idempotent in the presence of that one
mutation: re-running it with the policy object as the first call left it
produces the identical epoch collection. -/
theorem c9_no_side_effects (data : SigTable) (events : List EventRec)
    (r dur st : ℚ) (p : Policy) :
    (epochsCreate data events r dur st p).2.2.1 = data ∧
    (epochsCreate data events r dur st p).2.2.2 = events ∧
    (epochsCreate data events r dur st
        ((epochsCreate data events r dur st p).2.1)).1 =
      (epochsCreate data events r dur st p).1 := by
  refine ⟨rfl, rfl, ?_⟩
  show (epochsLoop data r dur st events ((epochsLoop data r dur st events p).2)).1 =
    (epochsLoop data r dur st events p).1
  cases events with
  | nil => rfl
  | cons ev rest =>
      rw [epochsLoop_snd data r dur st (ev :: rest) p (by simp)]
      exact epochsLoop_fst_resolve data r dur st (ev :: rest) p

end EpochsCreate
